import Mathlib

/-!
Shallow embedding of the expense-tracking screen in `src/ExpenseScreen.js`.

JavaScript numbers are modelled as IEEE-754 binary64 values: an exact
rational carried in `JNum.num`, together with `NaN` and the two
infinities.  Arithmetic rounds to nearest, ties to even, on the binary64
grid (`roundDouble`), so double-precision rounding such as
`1e16 + 1 === 1e16` is reproduced exactly.  The dynamically typed
`amount` field of a row is modelled by `JSVal`.

Calendar dates are modelled by civil triples (`CivilDate`) and by integer
day numbers (days since 1970-01-01); instants are integer milliseconds
since the epoch.  The host timezone is a fixed offset `tz` in
milliseconds (local clock = UTC clock + `tz`); daylight-saving
transitions are not modelled.  `new Date(string)` is modelled for the
ECMA-262 Date Time String Format (`YYYY[-MM[-DD[THH:mm[:ss[.sss]][Z|±HH:mm|±HHmm]]]]`
with four-digit years): a date-only string denotes UTC midnight while a
date-time without offset denotes local time, exactly as the standard
prescribes.  Strings outside that format (engine-specific fallback
formats) are treated as an invalid date.

String-to-number coercions (`parseFloat`, `Number(...)`) parse finite
decimal literals with optional sign, fraction and exponent, plus the
`Infinity` literal, and round the mathematical value to binary64
(hexadecimal literals are not modelled).  Several rational operations are
written through `mkRat` (`jqAdd`, `jqMul`, `pow2`) so that they evaluate
by kernel reduction; they are equal to the ordinary field operations by
the bridging lemmas below.
-/

/-- JavaScript numbers: IEEE-754 binary64 abstracted as an exact rational
value plus `NaN` and the infinities.  `num q` represents the double whose
exact value is `q`; every operation rounds its result to the binary64
grid. -/
inductive JNum where
  | nan : JNum
  | inf : JNum
  | ninf : JNum
  | num : ℚ → JNum
deriving DecidableEq

/-- Rational addition written through `mkRat` so that it evaluates by
kernel reduction; equal to `+` by `jqAdd_eq`. -/
def jqAdd (a b : ℚ) : ℚ :=
  mkRat (a.num * (b.den : ℤ) + b.num * (a.den : ℤ)) (a.den * b.den)

/-- Rational multiplication written through `mkRat`; equal to `*` by
`jqMul_eq`. -/
def jqMul (a b : ℚ) : ℚ :=
  mkRat (a.num * b.num) (a.den * b.den)

/-- `2 ^ e` over ℚ for an integer exponent, written so that it evaluates
by kernel reduction; equal to the zpow by `pow2_eq_zpow`. -/
def pow2 (e : ℤ) : ℚ :=
  if 0 ≤ e then ((2 ^ e.toNat : ℕ) : ℚ) else mkRat 1 (2 ^ (-e).toNat)

/-- Fuel-driven base-2 logarithm on ℕ (the core `Nat.log2` is defined by
well-founded recursion and does not evaluate by kernel reduction). -/
def natLog2Aux : ℕ → ℕ → ℕ
  | 0, _ => 0
  | fuel + 1, n => if n ≤ 1 then 0 else natLog2Aux fuel (n / 2) + 1

/-- `⌊log₂ n⌋` for `n ≥ 1` (and `0` for `n = 0`). -/
def natLog2 (n : ℕ) : ℕ :=
  natLog2Aux n n

/-- Floor of a rational, written over `num`/`den` so that it evaluates by
kernel reduction; equal to `⌊·⌋` by `ratFloor_eq`. -/
def ratFloor (x : ℚ) : ℤ :=
  x.num / (x.den : ℤ)

/-- Round a rational to the nearest integer, ties to even. -/
def rhe (y : ℚ) : ℤ :=
  let f := ratFloor y
  let frac := jqAdd y (-(f : ℚ))
  if frac < mkRat 1 2 then f
  else if mkRat 1 2 < frac then f + 1
  else if f % 2 = 0 then f else f + 1

/-- `⌊log₂ x⌋` for a positive rational: the `e` with `2^e ≤ x < 2^(e+1)`. -/
def ratLog2 (x : ℚ) : ℤ :=
  let a := (natLog2 x.num.natAbs : ℤ)
  let b := (natLog2 x.den : ℤ)
  if pow2 (a - b) ≤ x then a - b else a - b - 1

/-- The exponent of the binary64 grid spacing around a positive rational:
`ulp = 2^gridExp`, i.e. `max (⌊log₂ x⌋ - 52) (-1074)` (the second branch
is the subnormal range). -/
def gridExp (x : ℚ) : ℤ :=
  max (ratLog2 x - 52) (-1074)

/-- Round a positive rational to the binary64 grid, nearest, ties to
even (without the overflow check). -/
def roundQpos (x : ℚ) : ℚ :=
  let g := gridExp x
  jqMul ((rhe (jqMul x (pow2 (-g))) : ℤ) : ℚ) (pow2 g)

/-- Round any rational to the binary64 grid, nearest, ties to even. -/
def roundQ (x : ℚ) : ℚ :=
  if x = 0 then 0
  else if x < 0 then -(roundQpos (-x))
  else roundQpos x

/-- IEEE-754 binary64 rounding of an exact rational result: round to
nearest, ties to even, overflowing to the infinities at `2^1024`. -/
def roundDouble (x : ℚ) : JNum :=
  let r := roundQ x
  if pow2 1024 ≤ r then .inf
  else if r ≤ -(pow2 1024) then .ninf
  else .num r

/-- `q` is the exact value of a finite binary64 number: an integer of
magnitude below `2^53` scaled by a power of two in the admissible
exponent range. -/
def reprQ (q : ℚ) : Prop :=
  ∃ k g : ℤ, q = (k : ℚ) * (2 : ℚ) ^ g ∧ k.natAbs < 2 ^ 53 ∧ -1074 ≤ g ∧ g ≤ 971

/-- A `JNum` that is an actual machine value: `NaN`, an infinity, or a
finite value on the binary64 grid. -/
def JNum.canonical : JNum → Prop
  | .num q => reprQ q
  | _ => True

/-- JavaScript `+` on numbers: `NaN` absorbing, the usual infinity
algebra, and rounded binary64 addition on finite values. -/
def JNum.add : JNum → JNum → JNum
  | .nan, _ => .nan
  | _, .nan => .nan
  | .inf, .ninf => .nan
  | .ninf, .inf => .nan
  | .inf, _ => .inf
  | _, .inf => .inf
  | .ninf, _ => .ninf
  | _, .ninf => .ninf
  | .num a, .num b => roundDouble (jqAdd a b)

/-- JavaScript negation of a number. -/
def JNum.neg : JNum → JNum
  | .nan => .nan
  | .inf => .ninf
  | .ninf => .inf
  | .num q => .num (-q)

/-- JavaScript falsiness of a number: `0` and `NaN` are falsy; the
infinities are truthy. -/
def JNum.falsy : JNum → Bool
  | .nan => true
  | .num q => q = 0
  | _ => false

/-- The `isNaN` test. -/
def JNum.isNaN : JNum → Bool
  | .nan => true
  | _ => false

/-- The JavaScript comparison `amt <= 0` (false on `NaN`). -/
def jsLeZero : JNum → Bool
  | .nan => false
  | .inf => false
  | .ninf => true
  | .num q => q ≤ 0

/-- A dynamically typed JavaScript value as it may appear in the `amount`
field of a row. -/
inductive JSVal where
  | num : ℚ → JSVal
  | nan : JSVal
  | inf : JSVal
  | ninf : JSVal
  | str : String → JSVal
  | null : JSVal
  | undef : JSVal
deriving DecidableEq

/-- JavaScript falsiness of a `JSVal`: `0`, `NaN`, `""`, `null`,
`undefined` are falsy; the infinities are truthy. -/
def JSVal.falsy : JSVal → Bool
  | .num q => q = 0
  | .nan => true
  | .inf => false
  | .ninf => false
  | .str s => s = ""
  | .null => true
  | .undef => true

/-- The number returned by `parseFloat`, stored back as a row value. -/
def JNum.toVal : JNum → JSVal
  | .nan => .nan
  | .inf => .inf
  | .ninf => .ninf
  | .num q => .num q

/-- Numeric value of a list of decimal digit characters. -/
def digitsVal (ds : List Char) : ℕ :=
  ds.foldl (fun a c => 10 * a + (c.toNat - 48)) 0

/-- `10 ^ e` over ℚ for an integer exponent. -/
def pow10 (e : ℤ) : ℚ :=
  if 0 ≤ e then ((10 : ℚ) ^ e.toNat) else 1 / ((10 : ℚ) ^ (-e).toNat)

/-- Parse an unsigned decimal mantissa (`digits`, `digits.digits`,
`digits.`, or `.digits`) from the front of a character list, returning
its exact value and the unconsumed rest. -/
def parseMantissa (cs : List Char) : Option (ℚ × List Char) :=
  let p := cs.span (·.isDigit)
  match p.2 with
  | '.' :: r2 =>
    let pf := r2.span (·.isDigit)
    if p.1.isEmpty ∧ pf.1.isEmpty then none
    else some (((digitsVal p.1 : ℚ) + (digitsVal pf.1 : ℚ) / (10 : ℚ) ^ pf.1.length), pf.2)
  | _ =>
    if p.1.isEmpty then none else some ((digitsVal p.1 : ℚ), p.2)

/-- Parse an optional exponent part (`e`/`E`, optional sign, digits).  If
no well-formed exponent follows, nothing is consumed. -/
def parseExpPart (cs : List Char) : Option (ℤ × List Char) :=
  match cs with
  | c :: rest =>
    if c = 'e' ∨ c = 'E' then
      match rest with
      | '+' :: r2 =>
        let p := r2.span (·.isDigit)
        if p.1.isEmpty then none else some ((digitsVal p.1 : ℤ), p.2)
      | '-' :: r2 =>
        let p := r2.span (·.isDigit)
        if p.1.isEmpty then none else some (-(digitsVal p.1 : ℤ), p.2)
      | _ =>
        let p := rest.span (·.isDigit)
        if p.1.isEmpty then none else some ((digitsVal p.1 : ℤ), p.2)
    else none
  | [] => none

/-- Parse an unsigned decimal literal with optional exponent, as an exact
rational. -/
def parseDecExp (cs : List Char) : Option (ℚ × List Char) :=
  match parseMantissa cs with
  | none => none
  | some (q, r) =>
    match parseExpPart r with
    | some (e, r2) => some (q * pow10 e, r2)
    | none => some (q, r)

/-- Recognise the `Infinity` literal. -/
def parseInfinity : List Char → Option (List Char)
  | 'I' :: 'n' :: 'f' :: 'i' :: 'n' :: 'i' :: 't' :: 'y' :: r => some r
  | _ => none

/-- Parse an unsigned JavaScript number literal: `Infinity`, or a decimal
literal whose mathematical value is rounded to binary64. -/
def parseUnsignedFloat (cs : List Char) : Option (JNum × List Char) :=
  match parseInfinity cs with
  | some r => some (.inf, r)
  | none =>
    match parseDecExp cs with
    | some (q, r) => some (roundDouble q, r)
    | none => none

/-- JavaScript `parseFloat`: skip leading whitespace, read the longest
valid prefix (sign, then `Infinity` or a decimal literal); an
unrecognised prefix gives `NaN`. -/
def parseFloat (s : String) : JNum :=
  match s.toList.dropWhile (·.isWhitespace) with
  | '+' :: rest =>
    match parseUnsignedFloat rest with
    | some (v, _) => v
    | none => .nan
  | '-' :: rest =>
    match parseUnsignedFloat rest with
    | some (v, _) => v.neg
    | none => .nan
  | cs =>
    match parseUnsignedFloat cs with
    | some (v, _) => v
    | none => .nan

/-- JavaScript `String.prototype.trim`: strip whitespace from both ends
(written over the character list so it evaluates by kernel reduction). -/
def jsTrim (s : String) : String :=
  ⟨s.toList.dropWhile (·.isWhitespace) |>.reverse.dropWhile (·.isWhitespace) |>.reverse⟩

/-- The body of `Number(...)` on a non-empty trimmed string: the whole
string must be consumed. -/
def jsNumberCore (cs : List Char) : JNum :=
  match parseUnsignedFloat cs with
  | some (v, []) => v
  | _ => .nan

/-- JavaScript `Number(...)` applied to a string: the whole trimmed
string must be a number literal; the empty string coerces to `0`,
anything else unparseable to `NaN`. -/
def jsNumber (s : String) : JNum :=
  let t := (jsTrim s).toList
  if t.isEmpty then .num 0
  else
    match t with
    | '+' :: rest => jsNumberCore rest
    | '-' :: rest => (jsNumberCore rest).neg
    | _ => jsNumberCore t

/-- JavaScript `Number(...)` on a `JSVal`: numbers unchanged, `null` to
`0`, `undefined` to `NaN`, strings via `jsNumber`. -/
def jsToNumber : JSVal → JNum
  | .num q => .num q
  | .nan => .nan
  | .inf => .inf
  | .ninf => .ninf
  | .str s => jsNumber s
  | .null => .num 0
  | .undef => .nan

/-- The JavaScript expression `a || 0` on a `JSVal`. -/
def jsOrZeroVal (a : JSVal) : JSVal :=
  if a.falsy then .num 0 else a

/-- `Number(exp.amount || 0)`: the contribution of an `amount` value to
the aggregation (`totalsByCategory` / `overallTotal` in
`src/ExpenseScreen.js`, lines 116 and 122). -/
def amountValue (a : JSVal) : JNum :=
  jsToNumber (jsOrZeroVal a)

/-- A civil calendar date: year, 1-based month, day of month. -/
structure CivilDate where
  year : ℤ
  month : ℤ
  day : ℤ
deriving DecidableEq

/-- Leap-year test of the Gregorian calendar. -/
def isLeap (y : ℤ) : Bool :=
  (y % 4 = 0 ∧ y % 100 ≠ 0) ∨ y % 400 = 0

/-- Number of days in a month of the Gregorian calendar. -/
def daysInMonth (y m : ℤ) : ℤ :=
  if m = 2 then (if isLeap y then 29 else 28)
  else if m = 4 ∨ m = 6 ∨ m = 9 ∨ m = 11 then 30
  else 31

/-- Day number (days since 1970-01-01) of a civil date, by the standard
era-based algorithm for the proleptic Gregorian calendar. -/
def daysFromCivil (y m d : ℤ) : ℤ :=
  let yAdj := if m ≤ 2 then y - 1 else y
  let era := yAdj / 400
  let yoe := yAdj - era * 400
  let mp := (m + 9) % 12
  let doy := (153 * mp + 2) / 5 + d - 1
  let doe := yoe * 365 + yoe / 4 - yoe / 100 + doy
  era * 146097 + doe - 719468

/-- Day number of a civil date structure. -/
def civilToDay (c : CivilDate) : ℤ :=
  daysFromCivil c.year c.month c.day

/-- JavaScript `Date.prototype.getDay` on a day number: weekday with
Sunday = 0 (1970-01-01, day number 0, was a Thursday, weekday 4). -/
def jsGetDay (dn : ℤ) : ℤ :=
  (dn + 4) % 7

/-- `getWeekBounds` (src/ExpenseScreen.js lines 32-39) at the
local-calendar day level: Monday of the week of `dn` through the
following Monday, as the half-open interval `[start, start + 7)` of local
day numbers. -/
def getWeekBounds (dn : ℤ) : ℤ × ℤ :=
  let day := jsGetDay dn
  let diffToMonday := (day + 6) % 7
  (dn - diffToMonday, dn - diffToMonday + 7)

/-- `getMonthBounds` (src/ExpenseScreen.js lines 41-47): first day of the
month of the reference date through the first day of the next month.  The
source works with 0-based `getMonth()` and relies on `new Date(y, 12, 1)`
normalising to January of the next year; here months are 1-based, so that
wrap appears as the `month = 12` case. -/
def getMonthBounds (year month : ℤ) : CivilDate × CivilDate :=
  (⟨year, month, 1⟩, if month = 12 then ⟨year + 1, 1, 1⟩ else ⟨year, month + 1, 1⟩)

/-- Strict lexicographic order on civil dates. -/
def civilLt (a b : CivilDate) : Prop :=
  a.year < b.year ∨ (a.year = b.year ∧ (a.month < b.month ∨ (a.month = b.month ∧ a.day < b.day)))

/-- Non-strict lexicographic order on civil dates. -/
def civilLe (a b : CivilDate) : Prop :=
  civilLt a b ∨ a = b

instance (a b : CivilDate) : Decidable (civilLt a b) := by
  unfold civilLt; infer_instance

instance (a b : CivilDate) : Decidable (civilLe a b) := by
  unfold civilLe; infer_instance

/-- Numeric value of a decimal digit character, as an integer. -/
def digitInt (c : Char) : ℤ :=
  (c.toNat : ℤ) - 48

/-- Value of a two-digit field. -/
def digit2 (a b : Char) : ℤ :=
  10 * digitInt a + digitInt b

/-- Milliseconds per day. -/
def msPerDay : ℤ :=
  86400000

/-- Result of parsing a date string: the civil day, the optional time of
day in milliseconds, and the optional explicit UTC offset in
milliseconds. -/
structure DateTimeParts where
  day : ℤ
  timeMs : Option ℤ
  offsetMs : Option ℤ
deriving DecidableEq

/-- Parse `HH:mm[:ss[.sss]]`, returning milliseconds into the day and the
unconsumed rest.  `24` is accepted as an hour only for exactly midnight,
as in the ECMA-262 format. -/
def parseTimeOfDay (cs : List Char) : Option (ℤ × List Char) :=
  match cs with
  | h1 :: h2 :: ':' :: n1 :: n2 :: rest =>
    if h1.isDigit ∧ h2.isDigit ∧ n1.isDigit ∧ n2.isDigit then
      let hh := digit2 h1 h2
      let mm := digit2 n1 n2
      match rest with
      | ':' :: s1 :: s2 :: '.' :: f1 :: f2 :: f3 :: r2 =>
        if s1.isDigit ∧ s2.isDigit ∧ f1.isDigit ∧ f2.isDigit ∧ f3.isDigit then
          let ss := digit2 s1 s2
          let ms := 100 * digitInt f1 + 10 * digitInt f2 + digitInt f3
          if (hh ≤ 23 ∧ mm ≤ 59 ∧ ss ≤ 59) ∨ (hh = 24 ∧ mm = 0 ∧ ss = 0 ∧ ms = 0) then
            some (hh * 3600000 + mm * 60000 + ss * 1000 + ms, r2)
          else none
        else none
      | ':' :: s1 :: s2 :: r2 =>
        if s1.isDigit ∧ s2.isDigit then
          let ss := digit2 s1 s2
          if (hh ≤ 23 ∧ mm ≤ 59 ∧ ss ≤ 59) ∨ (hh = 24 ∧ mm = 0 ∧ ss = 0) then
            some (hh * 3600000 + mm * 60000 + ss * 1000, r2)
          else none
        else none
      | _ =>
        if (hh ≤ 23 ∧ mm ≤ 59) ∨ (hh = 24 ∧ mm = 0) then
          some (hh * 3600000 + mm * 60000, rest)
        else none
    else none
  | _ => none

/-- Parse a timezone designator: `Z`, `±HH:mm` or `±HHmm`, returning the
offset in milliseconds and the unconsumed rest. -/
def parseTzOffset (cs : List Char) : Option (ℤ × List Char) :=
  match cs with
  | 'Z' :: r => some (0, r)
  | c :: h1 :: h2 :: ':' :: n1 :: n2 :: r =>
    if (c = '+' ∨ c = '-') ∧ h1.isDigit ∧ h2.isDigit ∧ n1.isDigit ∧ n2.isDigit ∧
        digit2 h1 h2 ≤ 23 ∧ digit2 n1 n2 ≤ 59 then
      some ((if c = '-' then -1 else 1) * (digit2 h1 h2 * 3600000 + digit2 n1 n2 * 60000), r)
    else none
  | c :: h1 :: h2 :: n1 :: n2 :: r =>
    if (c = '+' ∨ c = '-') ∧ h1.isDigit ∧ h2.isDigit ∧ n1.isDigit ∧ n2.isDigit ∧
        digit2 h1 h2 ≤ 23 ∧ digit2 n1 n2 ≤ 59 then
      some ((if c = '-' then -1 else 1) * (digit2 h1 h2 * 3600000 + digit2 n1 n2 * 60000), r)
    else none
  | _ => none

/-- Parse an ECMA-262 Date Time String Format string with a four-digit
year: `YYYY`, `YYYY-MM`, `YYYY-MM-DD`, each optionally followed by
`THH:mm[:ss[.sss]]` and a timezone designator.  Anything else — including
out-of-range fields and engine-specific fallback formats — is an invalid
date. -/
def parseEcmaDate (s : String) : Option DateTimeParts :=
  match s.toList with
  | [y1, y2, y3, y4] =>
    if y1.isDigit ∧ y2.isDigit ∧ y3.isDigit ∧ y4.isDigit then
      let y := 1000 * digitInt y1 + 100 * digitInt y2 + 10 * digitInt y3 + digitInt y4
      some ⟨daysFromCivil y 1 1, none, none⟩
    else none
  | [y1, y2, y3, y4, '-', m1, m2] =>
    if y1.isDigit ∧ y2.isDigit ∧ y3.isDigit ∧ y4.isDigit ∧ m1.isDigit ∧ m2.isDigit then
      let y := 1000 * digitInt y1 + 100 * digitInt y2 + 10 * digitInt y3 + digitInt y4
      let m := digit2 m1 m2
      if 1 ≤ m ∧ m ≤ 12 then some ⟨daysFromCivil y m 1, none, none⟩ else none
    else none
  | y1 :: y2 :: y3 :: y4 :: '-' :: m1 :: m2 :: '-' :: d1 :: d2 :: rest =>
    if y1.isDigit ∧ y2.isDigit ∧ y3.isDigit ∧ y4.isDigit ∧ m1.isDigit ∧ m2.isDigit ∧
        d1.isDigit ∧ d2.isDigit then
      let y := 1000 * digitInt y1 + 100 * digitInt y2 + 10 * digitInt y3 + digitInt y4
      let m := digit2 m1 m2
      let d := digit2 d1 d2
      if 1 ≤ m ∧ m ≤ 12 ∧ 1 ≤ d ∧ d ≤ daysInMonth y m then
        let dn := daysFromCivil y m d
        match rest with
        | [] => some ⟨dn, none, none⟩
        | 'T' :: tr =>
          match parseTimeOfDay tr with
          | none => none
          | some (t, r2) =>
            match r2 with
            | [] => some ⟨dn, some t, none⟩
            | _ =>
              match parseTzOffset r2 with
              | some (off, []) => some ⟨dn, some t, some off⟩
              | _ => none
        | _ => none
      else none
    else none
  | _ => none

/-- The time value (UTC milliseconds since the epoch) denoted by a parsed
date string on a host with fixed offset `tz` (local = UTC + `tz`):
date-only forms are UTC midnight, date-times with an explicit offset use
that offset, and date-times without one are local time — the ECMA-262
semantics. -/
def dateMsValue (tz : ℤ) (p : DateTimeParts) : ℤ :=
  match p.timeMs, p.offsetMs with
  | none, _ => p.day * msPerDay
  | some t, some off => p.day * msPerDay + t - off
  | some t, none => p.day * msPerDay + t - tz

/-- `new Date(string).getTime()` on a host with fixed offset `tz`:
the instant, or `none` for an invalid date. -/
def parseDateMs (tz : ℤ) (s : String) : Option ℤ :=
  (parseEcmaDate s).map (dateMsValue tz)

/-- The instant of local midnight of local day number `day` on a host
with fixed offset `tz`. -/
def localMidnightUtcMs (tz day : ℤ) : ℤ :=
  day * msPerDay - tz

/-- An expense row as stored in the `expenses` table and cached by the
screen.  The `amount` field carries a dynamically typed value so the
aggregation can be stated on arbitrary rows, as the spec does. -/
structure Expense where
  id : ℤ
  amount : JSVal
  category : Option String
  note : Option String
  date : String
deriving DecidableEq

/-- The three filter selectors `FILTER_ALL` / `FILTER_WEEK` /
`FILTER_MONTH`. -/
inductive TimeFilter where
  | all : TimeFilter
  | week : TimeFilter
  | month : TimeFilter
deriving DecidableEq

/-- The predicate of `expenses.filter` in `filteredExpenses`
(src/ExpenseScreen.js lines 106-109): the record's parsed instant
`new Date(exp.date)` must satisfy `start <= d && d < end`; an invalid
date satisfies neither comparison. -/
def inWindow (tz wstart wend : ℤ) (x : Expense) : Bool :=
  match parseDateMs tz x.date with
  | some t => decide (wstart ≤ t) && decide (t < wend)
  | none => false

/-- `filteredExpenses` (src/ExpenseScreen.js lines 97-110): identity for
`ALL`, otherwise keep the records whose parsed instant lies in the
resolved window.  `now` is the host-local civil date of the reference
instant and `tz` the host offset; the window bounds are local midnights
(`setHours(0,0,0,0)` and local `Date` construction), converted here to
instants by `localMidnightUtcMs`. -/
def filteredExpenses (expenses : List Expense) (filter : TimeFilter) (now : CivilDate)
    (tz : ℤ) : List Expense :=
  match filter with
  | .all => expenses
  | .week =>
    let b := getWeekBounds (civilToDay now)
    expenses.filter (inWindow tz (localMidnightUtcMs tz b.1) (localMidnightUtcMs tz b.2))
  | .month =>
    let b := getMonthBounds now.year now.month
    expenses.filter
      (inWindow tz (localMidnightUtcMs tz (civilToDay b.1)) (localMidnightUtcMs tz (civilToDay b.2)))

/-- The JavaScript expression `exp.category || 'Uncategorized'`: a missing
or empty category is replaced by the sentinel label. -/
def catLabel (c : Option String) : String :=
  match c with
  | none => "Uncategorized"
  | some s => if s = "" then "Uncategorized" else s

/-- Association-list lookup on the totals map (JavaScript property read
`map[k]`). -/
def lookupJ : List (String × JNum) → String → Option JNum
  | [], _ => none
  | p :: rest, k => if p.1 = k then some p.2 else lookupJ rest k

/-- JavaScript property assignment `map[k] = v` on the internal property
list: replace the value at an existing key in place, otherwise append the
new key. -/
def upsert : List (String × JNum) → String → JNum → List (String × JNum)
  | [], k, v => [(k, v)]
  | p :: rest, k, v => if p.1 = k then (k, v) :: rest else p :: upsert rest k v

/-- The JavaScript expression `map[cat] || 0`: an absent, zero or `NaN`
stored total reads as `0`. -/
def jsOrZero (v : Option JNum) : JNum :=
  match v with
  | none => .num 0
  | some x => if x.falsy then .num 0 else x

/-- One loop iteration of `totalsByCategory` (src/ExpenseScreen.js lines
114-117): `map[cat] = (map[cat] || 0) + Number(exp.amount || 0)`. -/
def categoryStep (m : List (String × JNum)) (e : Expense) : List (String × JNum) :=
  let cat := catLabel e.category
  upsert m cat ((jsOrZero (lookupJ m cat)).add (amountValue e.amount))

/-- `totalsByCategory` (src/ExpenseScreen.js lines 112-119) over a
filtered record list: the properties of the result object, as an
association list in insertion order. -/
def totalsByCategory (l : List Expense) : List (String × JNum) :=
  l.foldl categoryStep []

/-- `overallTotal` (src/ExpenseScreen.js lines 121-123):
`reduce((sum, exp) => sum + Number(exp.amount || 0), 0)`. -/
def overallTotal (l : List Expense) : JNum :=
  l.foldl (fun a e => a.add (amountValue e.amount)) (.num 0)

/-- One pie-chart segment as built by `chartData`. -/
structure ChartSegment where
  name : String
  population : JNum
  color : String
  legendFontColor : String
  legendFontSize : ℤ
deriving DecidableEq

/-- The fixed six-colour palette of `chartData`. -/
def palette : List String :=
  ["#f87171", "#60a5fa", "#fbbf24", "#34d399", "#a78bfa", "#f472b6"]

/-- `chartData` (src/ExpenseScreen.js lines 125-141): map the entries of
`totalsByCategory` to segments coloured by position modulo the palette
length, or a single "No Data" placeholder of value 1 when the map is
empty. -/
def chartData (totals : List (String × JNum)) : List ChartSegment :=
  if 0 < totals.length then
    totals.enum.map (fun p => ⟨p.2.1, p.2.2, palette.getD (p.1 % 6) "", "#f9fafb", 12⟩)
  else
    [⟨"No Data", .num 1, "#374151", "#9ca3af", 12⟩]

/-- The add-form fields (`amount`, `category`, `note` text inputs). -/
structure FormState where
  amount : String
  category : String
  note : String
deriving DecidableEq

/-- Result of an add attempt: the stored collection, the form state after
the attempt, and whether a persistence call (`INSERT`) was made. -/
structure AddResult where
  store : List Expense
  form : FormState
  persisted : Bool
deriving DecidableEq

/-- The expression `note.trim() || null` used when writing a row. -/
def trimOrNull (s : String) : Option String :=
  if jsTrim s = "" then none else some (jsTrim s)

/-- `addExpense` (src/ExpenseScreen.js lines 86-95): reject when
`isNaN(amt) || amt <= 0 || !category.trim()`, otherwise insert
`(amt, category.trim(), note.trim() || null, today)` and clear the
form. -/
def addExpense (s : FormState) (store : List Expense) (nextId : ℤ) (today : String) :
    AddResult :=
  let amt := parseFloat s.amount
  if amt.isNaN ∨ jsLeZero amt ∨ jsTrim s.category = "" then ⟨store, s, false⟩
  else
    ⟨store ++ [⟨nextId, amt.toVal, some (jsTrim s.category), trimOrNull s.note, today⟩],
     ⟨"", "", ""⟩, true⟩

/-- The edit-panel state: the record being edited (if any) and the four
edit fields. -/
structure EditState where
  editing : Option Expense
  amount : String
  category : String
  note : String
  date : String
deriving DecidableEq

/-- Result of a save-edit attempt: the stored collection, the edit state
after the attempt, and whether a persistence call (`UPDATE`) was made. -/
structure EditResult where
  store : List Expense
  edit : EditState
  persisted : Bool
deriving DecidableEq

/-- `cancelEdit` (src/ExpenseScreen.js lines 166-169). -/
def cancelEditState : EditState :=
  ⟨none, "", "", "", ""⟩

/-- `saveEdit` (src/ExpenseScreen.js lines 171-180): require an active
edit and reject when `isNaN(amt) || amt <= 0 || !editCategory.trim() ||
!editDate.trim()`; otherwise update the matching row's four fields
(storing `editDate.trim()` verbatim — its content is not validated as a
date) and clear the panel. -/
def saveEdit (es : EditState) (store : List Expense) : EditResult :=
  match es.editing with
  | none => ⟨store, es, false⟩
  | some target =>
    let amt := parseFloat es.amount
    if amt.isNaN ∨ jsLeZero amt ∨ jsTrim es.category = "" ∨ jsTrim es.date = "" then
      ⟨store, es, false⟩
    else
      ⟨store.map (fun e =>
          if e.id = target.id then
            ⟨e.id, amt.toVal, some (jsTrim es.category), trimOrNull es.note, jsTrim es.date⟩
          else e),
       cancelEditState, true⟩

/-- An instant in time, abstracted by what the code reads of it:
`utcDate` is the civil date of the instant on the UTC clock (what
`toISOString` renders), `localDate` the date on the host's local clock
(what `getDay` / `getDate` / `getFullYear` / `getMonth` read), and
`tzOffset` the host's fixed UTC offset in milliseconds.  The first two
differ for instants near midnight in a non-UTC host timezone. -/
structure Instant where
  utcDate : CivilDate
  localDate : CivilDate
  tzOffset : ℤ
deriving DecidableEq

/-- Two-digit zero-padded decimal rendering of a month or day. -/
def pad2 (n : ℤ) : String :=
  if n < 10 then "0" ++ toString n else toString n

/-- Four-digit zero-padded decimal rendering of a year. -/
def pad4 (n : ℤ) : String :=
  if n < 10 then "000" ++ toString n
  else if n < 100 then "00" ++ toString n
  else if n < 1000 then "0" ++ toString n
  else toString n

/-- `YYYY-MM-DD` rendering of a civil date. -/
def isoOfCivil (c : CivilDate) : String :=
  pad4 c.year ++ "-" ++ pad2 c.month ++ "-" ++ pad2 c.day

/-- `getTodayIsoDate` (src/ExpenseScreen.js lines 28-30):
`new Date().toISOString().slice(0, 10)` — the first ten characters of the
ISO-8601 UTC timestamp, i.e. the UTC calendar day of the instant. -/
def getTodayIsoDate (i : Instant) : String :=
  isoOfCivil i.utcDate

/-- `addExpense` as invoked at an instant: the stored date argument is
`getTodayIsoDate()`. -/
def addExpenseAt (i : Instant) (s : FormState) (store : List Expense) (nextId : ℤ) :
    AddResult :=
  addExpense s store nextId (getTodayIsoDate i)

/-- `filteredExpenses` as invoked at an instant: `new Date()` is read
through the host-local calendar by `getWeekBounds` / `getMonthBounds`. -/
def filteredAt (i : Instant) (expenses : List Expense) (filter : TimeFilter) :
    List Expense :=
  filteredExpenses expenses filter i.localDate i.tzOffset

/-- Rational reading of a `JNum`, `NaN` and the infinities read as `0`
(used only inside proofs to track numeric accumulations). -/
def qOf : JNum → ℚ
  | .num q => q
  | _ => 0

/-- The rational contribution of a record's amount. -/
def qAmount (e : Expense) : ℚ :=
  qOf (amountValue e.amount)

/-- Rational sum of the contributions of the records with label `k`. -/
def qSumFor (l : List Expense) (k : String) : ℚ :=
  ((l.filter (fun e => catLabel e.category = k)).map qAmount).sum

/-- A record whose `amount` is the non-numeric string `"abc"`. -/
def cexRecA : Expense :=
  ⟨1, .str "abc", some "Food", none, "2024-01-05"⟩

/-- A record with numeric amount `5` in the same category as `cexRecA`. -/
def cexRecB : Expense :=
  ⟨2, .num 5, some "Food", none, "2024-01-06"⟩

/-- A record whose `date` string is not a parseable date. -/
def malformedRec : Expense :=
  ⟨3, .num 4, some "Food", none, "not-a-date"⟩

/-- An edit state whose date field holds the invalid non-empty date
"banana". -/
def bananaEdit : EditState :=
  ⟨some cexRecB, "10", "Food", "", "banana"⟩

/-- A reference instant on a UTC host: local and UTC dates agree. -/
def demoInstant : Instant :=
  ⟨⟨2024, 1, 5⟩, ⟨2024, 1, 5⟩, 0⟩

/-- An instant on a UTC-1 host shortly after UTC midnight: its UTC
calendar day (2024-01-06) differs from its host-local day (2024-01-05). -/
def skewInstant : Instant :=
  ⟨⟨2024, 1, 6⟩, ⟨2024, 1, 5⟩, -3600000⟩

/-!  Bridging lemmas for the kernel-evaluable rational operations. -/

theorem jqAdd_eq (a b : ℚ) : jqAdd a b = a + b := by
  have ha : ((a.den : ℚ)) ≠ 0 := by exact_mod_cast a.den_nz
  have hb : ((b.den : ℚ)) ≠ 0 := by exact_mod_cast b.den_nz
  rw [jqAdd, Rat.mkRat_eq_div]
  push_cast
  conv_rhs => rw [← Rat.num_div_den a, ← Rat.num_div_den b]
  rw [div_add_div _ _ ha hb]
  congr 1
  ring

theorem jqMul_eq (a b : ℚ) : jqMul a b = a * b := by
  rw [jqMul, Rat.mkRat_eq_div]
  push_cast
  rw [← div_mul_div_comm, Rat.num_div_den, Rat.num_div_den]

theorem pow2_eq_zpow (e : ℤ) : pow2 e = (2 : ℚ) ^ e := by
  rw [pow2]
  by_cases h : 0 ≤ e
  · rw [if_pos h]
    push_cast
    rw [← zpow_natCast (2 : ℚ)]
    congr 1
    omega
  · rw [if_neg h, Rat.mkRat_eq_div]
    push_cast
    rw [one_div, ← zpow_natCast (2 : ℚ), ← zpow_neg]
    congr 1
    omega

theorem ratFloor_eq (x : ℚ) : ratFloor x = ⌊x⌋ := by
  rw [ratFloor, Rat.floor_def]

theorem natLog2Aux_spec (fuel : ℕ) : ∀ n : ℕ, 1 ≤ n → n ≤ fuel →
    2 ^ natLog2Aux fuel n ≤ n ∧ n < 2 ^ (natLog2Aux fuel n + 1) := by
  induction fuel with
  | zero => intro n h1 h2; omega
  | succ f ih =>
    intro n h1 h2
    by_cases hn : n ≤ 1
    · have hn1 : n = 1 := by omega
      subst hn1
      norm_num [natLog2Aux]
    · have h1x : 1 ≤ n / 2 := by omega
      have h2x : n / 2 ≤ f := by omega
      obtain ⟨hl, hr⟩ := ih (n / 2) h1x h2x
      simp only [natLog2Aux, if_neg hn]
      set L := natLog2Aux f (n / 2) with hL
      have e1 : (2 : ℕ) ^ (L + 1) = 2 ^ L * 2 := pow_succ 2 L
      have e2 : (2 : ℕ) ^ (L + 1 + 1) = 2 ^ (L + 1) * 2 := pow_succ 2 (L + 1)
      rw [pow_succ] at hr
      omega

theorem natLog2_spec (n : ℕ) (h : 1 ≤ n) :
    2 ^ natLog2 n ≤ n ∧ n < 2 ^ (natLog2 n + 1) :=
  natLog2Aux_spec n n h le_rfl

theorem ratLog2_spec (x : ℚ) (hx : 0 < x) :
    (2 : ℚ) ^ ratLog2 x ≤ x ∧ x < (2 : ℚ) ^ (ratLog2 x + 1) := by
  have hnumpos : 0 < x.num := Rat.num_pos.mpr hx
  have hN : 1 ≤ x.num.natAbs := by omega
  have hD : 1 ≤ x.den := x.den_pos
  obtain ⟨hn1, hn2⟩ := natLog2_spec x.num.natAbs hN
  obtain ⟨hd1, hd2⟩ := natLog2_spec x.den hD
  have hxval : ((x.num : ℚ)) / ((x.den : ℚ)) = x := Rat.num_div_den x
  have hnum : ((x.num.natAbs : ℕ) : ℚ) = (x.num : ℚ) := by
    have : x.num.natAbs = x.num.toNat := by omega
    rw [this]
    exact_mod_cast congrArg (fun z => ((z : ℤ) : ℚ)) (Int.toNat_of_nonneg hnumpos.le)
  have hdenpos : (0 : ℚ) < (x.den : ℚ) := by exact_mod_cast hD
  set a := (natLog2 x.num.natAbs : ℤ) with ha
  set b := (natLog2 x.den : ℤ) with hb
  -- powers as ℚ-zpows
  have cast_pow : ∀ m : ℕ, ((2 ^ m : ℕ) : ℚ) = (2 : ℚ) ^ (m : ℤ) := by
    intro m
    push_cast
    rw [← zpow_natCast (2 : ℚ)]
  have key1 : (x.num : ℚ) < (2 : ℚ) ^ (a + 1) := by
    rw [← hnum]
    have : ((x.num.natAbs : ℕ) : ℚ) < ((2 ^ (natLog2 x.num.natAbs + 1) : ℕ) : ℚ) := by
      exact_mod_cast hn2
    rw [cast_pow] at this
    convert this using 2
  have key2 : (2 : ℚ) ^ a ≤ (x.num : ℚ) := by
    rw [← hnum]
    have : ((2 ^ natLog2 x.num.natAbs : ℕ) : ℚ) ≤ ((x.num.natAbs : ℕ) : ℚ) := by
      exact_mod_cast hn1
    rw [cast_pow] at this
    exact this
  have key3 : (2 : ℚ) ^ b ≤ ((x.den : ℕ) : ℚ) := by
    have : ((2 ^ natLog2 x.den : ℕ) : ℚ) ≤ ((x.den : ℕ) : ℚ) := by exact_mod_cast hd1
    rw [cast_pow] at this
    exact this
  have key4 : ((x.den : ℕ) : ℚ) < (2 : ℚ) ^ (b + 1) := by
    have : ((x.den : ℕ) : ℚ) < ((2 ^ (natLog2 x.den + 1) : ℕ) : ℚ) := by exact_mod_cast hd2
    rw [cast_pow] at this
    convert this using 2
  have hp : ∀ e : ℤ, (0 : ℚ) < (2 : ℚ) ^ e := fun e => zpow_pos (by norm_num) e
  have F1 : x < (2 : ℚ) ^ (a - b + 1) := by
    rw [← hxval, div_lt_iff₀ hdenpos]
    calc (x.num : ℚ) < (2 : ℚ) ^ (a + 1) := key1
      _ = (2 : ℚ) ^ (a - b + 1) * (2 : ℚ) ^ b := by
          rw [← zpow_add₀ (by norm_num : (2:ℚ) ≠ 0)]
          congr 1
          ring
      _ ≤ (2 : ℚ) ^ (a - b + 1) * ((x.den : ℕ) : ℚ) := by
          exact mul_le_mul_of_nonneg_left key3 (hp _).le
  have F2 : (2 : ℚ) ^ (a - b - 1) < x := by
    rw [← hxval, lt_div_iff₀ hdenpos]
    calc (2 : ℚ) ^ (a - b - 1) * ((x.den : ℕ) : ℚ)
        < (2 : ℚ) ^ (a - b - 1) * (2 : ℚ) ^ (b + 1) := by
          exact mul_lt_mul_of_pos_left key4 (hp _)
      _ = (2 : ℚ) ^ a := by
          rw [← zpow_add₀ (by norm_num : (2:ℚ) ≠ 0)]
          congr 1
          ring
      _ ≤ (x.num : ℚ) := key2
  rw [ratLog2]
  simp only [pow2_eq_zpow]
  by_cases hif : (2 : ℚ) ^ (a - b) ≤ x
  · rw [if_pos hif]
    exact ⟨hif, F1⟩
  · rw [if_neg hif]
    constructor
    · exact F2.le
    · have : a - b - 1 + 1 = a - b := by ring
      rw [this]
      exact lt_of_not_le hif

theorem rhe_def (y : ℚ) :
    rhe y =
      if y - (⌊y⌋ : ℚ) < 1 / 2 then ⌊y⌋
      else if 1 / 2 < y - (⌊y⌋ : ℚ) then ⌊y⌋ + 1
      else if ⌊y⌋ % 2 = 0 then ⌊y⌋ else ⌊y⌋ + 1 := by
  have h1 : mkRat 1 2 = (1 : ℚ) / 2 := by
    rw [Rat.mkRat_eq_div]
    norm_num
  simp only [rhe, jqAdd_eq, h1, ratFloor_eq, sub_eq_add_neg]

theorem rhe_bounds (y : ℚ) : (rhe y : ℚ) ≤ y + 1 / 2 ∧ y - 1 / 2 ≤ (rhe y : ℚ) := by
  have hf1 : ((⌊y⌋ : ℤ) : ℚ) ≤ y := Int.floor_le y
  have hf2 : y < ((⌊y⌋ : ℤ) : ℚ) + 1 := Int.lt_floor_add_one y
  rw [rhe_def]
  split_ifs with h1 h2 h3 <;> push_cast <;> exact ⟨by linarith, by linarith⟩

theorem rhe_intCast (k : ℤ) : rhe (k : ℚ) = k := by
  rw [rhe_def]
  norm_num [Int.floor_intCast]

theorem rhe_ge_int (t : ℤ) (y : ℚ) (h : (t : ℚ) ≤ y) : t ≤ rhe y := by
  have h2 := (rhe_bounds y).2
  have hlt : t < rhe y + 1 := by
    exact_mod_cast (show (t : ℚ) < ((rhe y : ℤ) : ℚ) + 1 by linarith)
  omega

theorem rhe_le_int (t : ℤ) (y : ℚ) (h : y ≤ (t : ℚ)) : rhe y ≤ t := by
  have h2 := (rhe_bounds y).1
  have hlt : rhe y < t + 1 := by
    exact_mod_cast (show ((rhe y : ℤ) : ℚ) < (t : ℚ) + 1 by linarith)
  omega

theorem rhe_nonneg (y : ℚ) (h : 0 ≤ y) : 0 ≤ rhe y :=
  rhe_ge_int 0 y (by exact_mod_cast h)

theorem roundQpos_eq (x : ℚ) :
    roundQpos x = ((rhe (x * (2 : ℚ) ^ (-(gridExp x)))) : ℚ) * (2 : ℚ) ^ gridExp x := by
  simp only [roundQpos, jqMul_eq, pow2_eq_zpow]

/-- A positive grid point with exponent at least the grid exponent is a
fixed point of `roundQpos`. -/
theorem roundQpos_on_grid (k gr : ℤ) (hg : gridExp ((k : ℚ) * (2 : ℚ) ^ gr) ≤ gr) :
    roundQpos ((k : ℚ) * (2 : ℚ) ^ gr) = (k : ℚ) * (2 : ℚ) ^ gr := by
  set x := (k : ℚ) * (2 : ℚ) ^ gr with hx
  set g := gridExp x with hgdef
  have h2 : (2 : ℚ) ≠ 0 := by norm_num
  have hyint : x * (2 : ℚ) ^ (-g) = ((k * 2 ^ (gr - g).toNat : ℤ) : ℚ) := by
    push_cast
    rw [hx, mul_assoc, ← zpow_natCast (2 : ℚ), ← zpow_add₀ h2]
    congr 2
    omega
  rw [roundQpos_eq, ← hgdef, hyint, rhe_intCast]
  push_cast
  rw [mul_assoc, ← zpow_natCast (2 : ℚ), ← zpow_add₀ h2]
  congr 2
  omega

theorem reprQ_zero : reprQ 0 :=
  ⟨0, 0, by norm_num, by norm_num, by norm_num, by norm_num⟩

theorem reprQ_neg {q : ℚ} (h : reprQ q) : reprQ (-q) := by
  obtain ⟨k, g, hq, hk, hg1, hg2⟩ := h
  exact ⟨-k, g, by rw [hq]; push_cast; ring, by simpa using hk, hg1, hg2⟩

/-- A positive representable value rounds to itself and lies below
`2^1024`. -/
theorem roundQpos_fixed (k g : ℤ) (hkpos : 0 < k) (hk : k.natAbs < 2 ^ 53)
    (hg1 : -1074 ≤ g) :
    roundQpos ((k : ℚ) * (2 : ℚ) ^ g) = (k : ℚ) * (2 : ℚ) ^ g ∧
    (k : ℚ) * (2 : ℚ) ^ g < (2 : ℚ) ^ (g + 53) := by
  have h2 : (2 : ℚ) ≠ 0 := by norm_num
  have h21 : (1 : ℚ) < 2 := by norm_num
  set x := (k : ℚ) * (2 : ℚ) ^ g with hx
  have hxpos : 0 < x := by
    apply mul_pos _ (zpow_pos (by norm_num) g)
    exact_mod_cast hkpos
  have hkq : (k : ℚ) < (2 : ℚ) ^ (53 : ℤ) := by
    have hk2 : k < 2 ^ 53 := by omega
    have hcast : ((2 : ℚ) ^ (53 : ℤ)) = ((2 ^ 53 : ℤ) : ℚ) := by norm_num
    rw [hcast]
    exact_mod_cast hk2
  have hupper : x < (2 : ℚ) ^ (g + 53) := by
    rw [hx]
    calc (k : ℚ) * (2 : ℚ) ^ g < (2 : ℚ) ^ (53 : ℤ) * (2 : ℚ) ^ g := by
          exact mul_lt_mul_of_pos_right hkq (zpow_pos (by norm_num) g)
      _ = (2 : ℚ) ^ (g + 53) := by rw [← zpow_add₀ h2]; congr 1; ring
  have he : ratLog2 x ≤ g + 52 := by
    by_contra hcon
    push_neg at hcon
    have hle : (2 : ℚ) ^ (g + 53) ≤ (2 : ℚ) ^ ratLog2 x :=
      zpow_le_zpow_right₀ (by norm_num) (by omega)
    have := (ratLog2_spec x hxpos).1
    linarith
  have hgle : gridExp x ≤ g := by
    rw [gridExp]
    omega
  exact ⟨roundQpos_on_grid k g hgle, hupper⟩

/-- Identity of binary64 rounding on representable values. -/
theorem roundDouble_of_reprQ (q : ℚ) (h : reprQ q) : roundDouble q = .num q := by
  obtain ⟨k, g, hq, hk, hg1, hg2⟩ := h
  have h2 : (2 : ℚ) ≠ 0 := by norm_num
  have hples : ∀ e f : ℤ, e ≤ f → (2 : ℚ) ^ e ≤ (2 : ℚ) ^ f :=
    fun e f hef => zpow_le_zpow_right₀ (by norm_num) hef
  have hov : (2 : ℚ) ^ (g + 53) ≤ (2 : ℚ) ^ (1024 : ℤ) := hples _ _ (by omega)
  have hpow1024 : pow2 1024 = (2 : ℚ) ^ (1024 : ℤ) := pow2_eq_zpow 1024
  rcases lt_trichotomy k 0 with hkneg | hkzero | hkpos
  · -- negative value
    have hfix := roundQpos_fixed (-k) g (by omega) (by simpa using hk) hg1
    have hneg : -q = ((-k : ℤ) : ℚ) * (2 : ℚ) ^ g := by rw [hq]; push_cast; ring
    have hqneg : q < 0 := by
      rw [hq]
      apply mul_neg_of_neg_of_pos _ (zpow_pos (by norm_num) g)
      exact_mod_cast hkneg
    have hrq : roundQ q = q := by
      rw [roundQ, if_neg (by linarith), if_pos hqneg, hneg, hfix.1, ← hneg, neg_neg]
    rw [roundDouble, hrq, hpow1024]
    rw [if_neg (by linarith), if_neg ?hninf]
    case hninf =>
      have : -q < (2 : ℚ) ^ (1024 : ℤ) := by
        rw [hneg]
        exact lt_of_lt_of_le hfix.2 hov
      linarith
  · -- zero
    subst hkzero
    have hq0 : q = 0 := by rw [hq]; push_cast; ring
    subst hq0
    rw [roundDouble, roundQ, if_pos rfl, hpow1024]
    have hpos : (0 : ℚ) < (2 : ℚ) ^ (1024 : ℤ) := zpow_pos (by norm_num) _
    rw [if_neg (by linarith), if_neg (by linarith)]
  · -- positive value
    have hfix := roundQpos_fixed k g hkpos hk hg1
    have hqpos : 0 < q := by
      rw [hq]
      apply mul_pos _ (zpow_pos (by norm_num) g)
      exact_mod_cast hkpos
    have hrq : roundQ q = q := by
      rw [roundQ, if_neg (by linarith), if_neg (by linarith), hq, hfix.1]
    rw [roundDouble, hrq, hpow1024]
    have hlt : q < (2 : ℚ) ^ (1024 : ℤ) := by
      rw [hq]
      exact lt_of_lt_of_le hfix.2 hov
    have hpos : (0 : ℚ) < (2 : ℚ) ^ (1024 : ℤ) := zpow_pos (by norm_num) _
    rw [if_neg (by linarith), if_neg (by linarith)]

/-- Closure of binary64 rounding: a non-overflowing positive rounding
result is representable. -/
theorem roundQpos_repr (x : ℚ) (hx : 0 < x)
    (hov : roundQpos x < (2 : ℚ) ^ (1024 : ℤ)) : reprQ (roundQpos x) := by
  have h2 : (2 : ℚ) ≠ 0 := by norm_num
  have hround := roundQpos_eq x
  obtain ⟨hs1, hs2⟩ := ratLog2_spec x hx
  set e := ratLog2 x with he
  set g := gridExp x with hg
  set y := x * (2 : ℚ) ^ (-g) with hy
  set k0 := rhe y with hk0
  have hypos : 0 < y := mul_pos hx (zpow_pos (by norm_num) _)
  have hk0nn : 0 ≤ k0 := rhe_nonneg y hypos.le
  have hgmax : g = max (e - 52) (-1074) := rfl
  have hcast53 : ((2 ^ 53 : ℤ) : ℚ) = (2 : ℚ) ^ (53 : ℤ) := by norm_num
  have hcast52 : ((2 ^ 52 : ℤ) : ℚ) = (2 : ℚ) ^ (52 : ℤ) := by norm_num
  have hy53 : y < (2 : ℚ) ^ (53 : ℤ) := by
    by_cases hcase : -1074 ≤ e - 52
    · have hge : g = e - 52 := by rw [hgmax]; omega
      rw [hy, hge]
      calc x * (2 : ℚ) ^ (-(e - 52)) < (2 : ℚ) ^ (e + 1) * (2 : ℚ) ^ (-(e - 52)) :=
            mul_lt_mul_of_pos_right hs2 (zpow_pos (by norm_num) _)
        _ = (2 : ℚ) ^ (53 : ℤ) := by rw [← zpow_add₀ h2]; congr 1; ring
    · have hge : g = -1074 := by rw [hgmax]; omega
      rw [hy, hge]
      calc x * (2 : ℚ) ^ (-(-1074 : ℤ)) < (2 : ℚ) ^ (e + 1) * (2 : ℚ) ^ (-(-1074 : ℤ)) :=
            mul_lt_mul_of_pos_right hs2 (zpow_pos (by norm_num) _)
        _ = (2 : ℚ) ^ (e + 1 + 1074) := by rw [← zpow_add₀ h2]; norm_num
        _ ≤ (2 : ℚ) ^ (52 : ℤ) := zpow_le_zpow_right₀ (by norm_num) (by omega)
        _ < (2 : ℚ) ^ (53 : ℤ) := zpow_lt_zpow_right₀ (by norm_num) (by omega)
  have hk0le : k0 ≤ 2 ^ 53 := by
    apply rhe_le_int
    rw [hcast53]
    exact hy53.le
  by_cases hk53 : k0 = 2 ^ 53
  · have hval : ((2 ^ 53 : ℤ) : ℚ) * (2 : ℚ) ^ g = ((2 ^ 52 : ℤ) : ℚ) * (2 : ℚ) ^ (g + 1) := by
      rw [hcast53, hcast52, zpow_add₀ h2, zpow_one,
        show (53 : ℤ) = 52 + 1 by norm_num, zpow_add₀ h2, zpow_one]
      ring
    have hrval : roundQpos x = (2 : ℚ) ^ (g + 53) := by
      rw [hround, hk53, hcast53, ← zpow_add₀ h2]
      congr 1
      ring
    have hgle : g ≤ 970 := by
      rw [hrval] at hov
      have := (zpow_lt_zpow_iff_right₀ (by norm_num : (1 : ℚ) < 2)).mp hov
      omega
    refine ⟨2 ^ 52, g + 1, ?_, ?_, by rw [hgmax]; omega, by omega⟩
    · rw [hround, hk53, hval]
    · rw [Int.natAbs_pow]
      norm_num
  · have hk0lt : k0 < 2 ^ 53 := by omega
    have hg971 : g ≤ 971 := by
      by_contra hcon
      push_neg at hcon
      have hge : g = e - 52 := by rw [hgmax]; omega
      have hyge : (2 : ℚ) ^ (52 : ℤ) ≤ y := by
        rw [hy, hge]
        calc (2 : ℚ) ^ (52 : ℤ) = (2 : ℚ) ^ e * (2 : ℚ) ^ (-(e - 52)) := by
              rw [← zpow_add₀ h2]; congr 1; ring
          _ ≤ x * (2 : ℚ) ^ (-(e - 52)) :=
              mul_le_mul_of_nonneg_right hs1 (zpow_pos (by norm_num) _).le
      have hk0ge : 2 ^ 52 ≤ k0 := by
        apply rhe_ge_int
        rw [hcast52]
        exact hyge
      have hbig : (2 : ℚ) ^ (1024 : ℤ) ≤ roundQpos x := by
        rw [hround]
        calc (2 : ℚ) ^ (1024 : ℤ) ≤ (2 : ℚ) ^ (52 : ℤ) * (2 : ℚ) ^ g := by
              rw [← zpow_add₀ h2]
              apply zpow_le_zpow_right₀ (by norm_num)
              omega
          _ ≤ (k0 : ℚ) * (2 : ℚ) ^ g := by
              apply mul_le_mul_of_nonneg_right _ (zpow_pos (by norm_num) g).le
              rw [← hcast52]
              exact_mod_cast hk0ge
      linarith
    exact ⟨k0, g, hround, by omega, by rw [hgmax]; omega, hg971⟩

/-- A finite rounding result is representable. -/
theorem roundDouble_repr (x : ℚ) (r : ℚ) (h : roundDouble x = .num r) : reprQ r := by
  rw [roundDouble] at h
  split_ifs at h with hov1 hov2
  · have hr : roundQ x = r := by injection h
    rw [pow2_eq_zpow] at hov1 hov2
    push_neg at hov1 hov2
    rw [hr] at hov1 hov2
    rw [roundQ] at hr
    split_ifs at hr with hx0 hxneg
    · rw [← hr]
      exact reprQ_zero
    · have hnegpos : 0 < -x := by linarith
      have hpr : roundQpos (-x) < (2 : ℚ) ^ (1024 : ℤ) := by linarith [hr, hov2]
      have hrep := roundQpos_repr (-x) hnegpos hpr
      rw [← hr]
      exact reprQ_neg hrep
    · have hxpos : 0 < x := by
        rcases lt_trichotomy x 0 with hl | hl | hl
        · exact absurd hl hxneg
        · exact absurd hl hx0
        · exact hl
      have hpr : roundQpos x < (2 : ℚ) ^ (1024 : ℤ) := by linarith [hr, hov1]
      rw [← hr]
      exact roundQpos_repr x hxpos hpr

theorem roundDouble_canonical (x : ℚ) : (roundDouble x).canonical := by
  cases hh : roundDouble x with
  | nan => trivial
  | inf => trivial
  | ninf => trivial
  | num r => exact roundDouble_repr x r hh

theorem add_canonical (a b : JNum) : (a.add b).canonical := by
  cases a <;> cases b <;> first
    | exact trivial
    | exact roundDouble_canonical _

theorem add_zero_of_canonical (a : JNum) (h : a.canonical) : a.add (JNum.num 0) = a := by
  cases a with
  | nan => rfl
  | inf => rfl
  | ninf => rfl
  | num q =>
    show roundDouble (jqAdd q 0) = JNum.num q
    rw [jqAdd_eq, add_zero]
    exact roundDouble_of_reprQ q h

theorem jsOrZero_some_num (q : ℚ) : jsOrZero (some (.num q)) = .num q := by
  by_cases h : q = 0
  · subst h; simp [jsOrZero, JNum.falsy]
  · simp [jsOrZero, JNum.falsy, h]

theorem lookupJ_upsert_self (m : List (String × JNum)) (k : String) (v : JNum) :
    lookupJ (upsert m k v) k = some v := by
  induction m with
  | nil => simp [upsert, lookupJ]
  | cons p rest ih =>
    by_cases h : p.1 = k
    · simp [upsert, h, lookupJ]
    · simp [upsert, h, lookupJ, ih]

theorem lookupJ_upsert_ne (m : List (String × JNum)) (k v kOther)
    (h : kOther ≠ k) : lookupJ (upsert m k v) kOther = lookupJ m kOther := by
  have h2 : ¬ k = kOther := fun hh => h hh.symm
  induction m with
  | nil => simp [upsert, lookupJ, h2]
  | cons p rest ih =>
    by_cases hp : p.1 = k
    · subst hp
      simp [upsert, lookupJ, h2]
    · simp [upsert, hp, lookupJ, ih]

theorem lookupJ_mem (m : List (String × JNum)) (k : String) (v : JNum)
    (h : lookupJ m k = some v) : (k, v) ∈ m := by
  induction m with
  | nil => exact Option.noConfusion h
  | cons p rest ih =>
    rw [lookupJ] at h
    by_cases hp : p.1 = k
    · rw [if_pos hp] at h
      have hv : p.2 = v := by injection h
      have hpk : p = (k, v) := by
        cases p
        cases hp
        cases hv
        rfl
      rw [← hpk]
      exact List.mem_cons_self p rest
    · rw [if_neg hp] at h
      exact List.mem_cons_of_mem p (ih h)

theorem mem_upsert (m : List (String × JNum)) (k : String) (v : JNum)
    (p : String × JNum) (h : p ∈ upsert m k v) : p = (k, v) ∨ p ∈ m := by
  induction m with
  | nil => simp [upsert] at h; simp [h]
  | cons hd rest ih =>
    by_cases hh : hd.1 = k
    · simp [upsert, hh] at h
      rcases h with h | h
      · exact Or.inl h
      · exact Or.inr (List.mem_cons_of_mem _ h)
    · simp [upsert, hh] at h
      rcases h with h | h
      · exact Or.inr (by simp [h])
      · rcases ih h with h2 | h2
        · exact Or.inl h2
        · exact Or.inr (List.mem_cons_of_mem _ h2)

theorem categoryStep_eq (m : List (String × JNum)) (e : Expense) :
    categoryStep m e =
      upsert m (catLabel e.category)
        ((jsOrZero (lookupJ m (catLabel e.category))).add (amountValue e.amount)) := rfl

theorem totals_append (l : List Expense) (e : Expense) :
    totalsByCategory (l ++ [e]) = categoryStep (totalsByCategory l) e := by
  simp [totalsByCategory, List.foldl_append]

theorem overallTotal_append (l : List Expense) (e : Expense) :
    overallTotal (l ++ [e]) = (overallTotal l).add (amountValue e.amount) := by
  simp [overallTotal, List.foldl_append]

theorem overallTotal_canonical (l : List Expense) : (overallTotal l).canonical := by
  induction l using List.reverseRecOn with
  | nil => exact reprQ_zero
  | append_singleton xs e ih =>
    rw [overallTotal_append]
    exact add_canonical _ _

theorem totals_canonical (l : List Expense) :
    ∀ p ∈ totalsByCategory l, JNum.canonical p.2 := by
  induction l using List.reverseRecOn with
  | nil => intro p hp; exact absurd hp (List.not_mem_nil p)
  | append_singleton xs e ih =>
    intro p hp
    rw [totals_append, categoryStep_eq] at hp
    rcases mem_upsert _ _ _ p hp with h1 | h1
    · rw [h1]
      exact add_canonical _ _
    · exact ih p h1

theorem qAmount_nonneg_of_nat (e : Expense)
    (h : ∃ n : ℕ, amountValue e.amount = JNum.num (n : ℚ)) : 0 ≤ qAmount e := by
  obtain ⟨n, hn⟩ := h
  simp only [qAmount, hn, qOf]
  positivity

theorem qSumFor_nonneg (l : List Expense) (k : String)
    (hnat : ∀ e ∈ l, ∃ n : ℕ, amountValue e.amount = JNum.num (n : ℚ)) :
    0 ≤ qSumFor l k := by
  rw [qSumFor]
  apply List.sum_nonneg
  intro x hx
  obtain ⟨e, he, rfl⟩ := List.mem_map.mp hx
  exact qAmount_nonneg_of_nat e (hnat e (List.mem_of_mem_filter he))

theorem mem_filter_inWindow (l : List Expense) (tz a b : ℤ) (x : Expense) :
    x ∈ l.filter (inWindow tz a b) ↔
      x ∈ l ∧ ∃ t, parseDateMs tz x.date = some t ∧ a ≤ t ∧ t < b := by
  rw [List.mem_filter]
  constructor
  · rintro ⟨hx, hw⟩
    refine ⟨hx, ?_⟩
    unfold inWindow at hw
    cases hp : parseDateMs tz x.date with
    | none => rw [hp] at hw; simp at hw
    | some t =>
      rw [hp] at hw
      simp only [Bool.and_eq_true, decide_eq_true_eq] at hw
      exact ⟨t, rfl, hw.1, hw.2⟩
  · rintro ⟨hx, t, hp, h1, h2⟩
    refine ⟨hx, ?_⟩
    unfold inWindow
    rw [hp]
    simp [h1, h2]

/-!  Claim theorems. -/

/-- C2 (confirmed): for a valid reference date, the WEEK resolver returns
the half-open interval obtained by stepping back to Monday (weekday index
normalised so Monday is 0) and spanning exactly 7 days, containing the
reference date, with the start falling on a Monday; the MONTH resolver
returns the interval from the first day of the reference month to the
first day of the next month, containing the reference date. -/
theorem windowBounds_spec (y m d : ℤ)
    (hm1 : 1 ≤ m) (hm2 : m ≤ 12) (hd1 : 1 ≤ d) (hd2 : d ≤ daysInMonth y m) :
    ((getWeekBounds (daysFromCivil y m d)).1 =
      daysFromCivil y m d - ((jsGetDay (daysFromCivil y m d) + 6) % 7)) ∧
    ((getWeekBounds (daysFromCivil y m d)).2 = (getWeekBounds (daysFromCivil y m d)).1 + 7) ∧
    ((getWeekBounds (daysFromCivil y m d)).1 ≤ daysFromCivil y m d) ∧
    (daysFromCivil y m d < (getWeekBounds (daysFromCivil y m d)).2) ∧
    (jsGetDay (getWeekBounds (daysFromCivil y m d)).1 = 1) ∧
    ((getMonthBounds y m).1 = ⟨y, m, 1⟩) ∧
    ((getMonthBounds y m).2 = if m = 12 then ⟨y + 1, 1, 1⟩ else ⟨y, m + 1, 1⟩) ∧
    civilLe (getMonthBounds y m).1 ⟨y, m, d⟩ ∧
    civilLt ⟨y, m, d⟩ (getMonthBounds y m).2 := by
  refine ⟨rfl, rfl, ?_, ?_, ?_, rfl, rfl, ?_, ?_⟩
  · show daysFromCivil y m d - ((daysFromCivil y m d + 4) % 7 + 6) % 7 ≤ daysFromCivil y m d
    omega
  · show daysFromCivil y m d <
      daysFromCivil y m d - ((daysFromCivil y m d + 4) % 7 + 6) % 7 + 7
    omega
  · show (daysFromCivil y m d - ((daysFromCivil y m d + 4) % 7 + 6) % 7 + 4) % 7 = 1
    omega
  · rcases eq_or_lt_of_le hd1 with h1 | h1
    · refine Or.inr ?_
      show (⟨y, m, 1⟩ : CivilDate) = ⟨y, m, d⟩
      rw [h1]
    · refine Or.inl (Or.inr ⟨rfl, Or.inr ⟨rfl, ?_⟩⟩)
      exact h1
  · by_cases hm : m = 12
    · subst hm
      refine Or.inl ?_
      show y < y + 1
      omega
    · have h2 : (getMonthBounds y m).2 = ⟨y, m + 1, 1⟩ := by
        simp [getMonthBounds, hm]
      rw [h2]
      refine Or.inr ⟨rfl, Or.inl ?_⟩
      show m < m + 1
      omega

/-- Witness for C2 at the reference date 2024-01-05. -/
theorem windowBounds_spec_witness :
    ((getWeekBounds (daysFromCivil 2024 1 5)).1 ≤ daysFromCivil 2024 1 5) ∧
    civilLt ⟨2024, 1, 5⟩ (getMonthBounds 2024 1).2 :=
  ⟨(windowBounds_spec 2024 1 5 (by decide) (by decide) (by decide) (by decide)).2.2.1,
   (windowBounds_spec 2024 1 5 (by decide) (by decide) (by decide)
     (by decide)).2.2.2.2.2.2.2.2⟩

/-- C3 (confirmed): `ALL` returns the record list unchanged; a windowed
filter returns an order-preserving subsequence containing exactly the
records whose date string parses (by the ECMA-262 rules the code relies
on, under which a date-only string denotes UTC midnight of its calendar
day) to an instant lying in the resolved half-open window, whose bounds
are the host-local midnights delimiting the current week or month. -/
theorem filteredExpenses_spec (i : Instant) (l : List Expense) :
    filteredAt i l TimeFilter.all = l ∧
    (filteredAt i l TimeFilter.week).Sublist l ∧
    (filteredAt i l TimeFilter.month).Sublist l ∧
    (∀ x, x ∈ filteredAt i l TimeFilter.week ↔
      x ∈ l ∧ ∃ t, parseDateMs i.tzOffset x.date = some t ∧
        localMidnightUtcMs i.tzOffset (getWeekBounds (civilToDay i.localDate)).1 ≤ t ∧
        t < localMidnightUtcMs i.tzOffset (getWeekBounds (civilToDay i.localDate)).2) ∧
    (∀ x, x ∈ filteredAt i l TimeFilter.month ↔
      x ∈ l ∧ ∃ t, parseDateMs i.tzOffset x.date = some t ∧
        localMidnightUtcMs i.tzOffset
          (civilToDay (getMonthBounds i.localDate.year i.localDate.month).1) ≤ t ∧
        t < localMidnightUtcMs i.tzOffset
          (civilToDay (getMonthBounds i.localDate.year i.localDate.month).2)) := by
  refine ⟨rfl, List.filter_sublist _, List.filter_sublist _, fun x => ?_, fun x => ?_⟩
  · exact mem_filter_inWindow l _ _ _ x
  · exact mem_filter_inWindow l _ _ _ x

/-- C6 (confirmed): filtering by `ALL` is the identity on the record
collection, and since filtering is pure (it never mutates the underlying
records), applying `ALL` again after any other filter computation — e.g.
after `WEEK` — still reproduces the original list. -/
theorem filteredExpenses_all_identity (l : List Expense) (now nowLater : CivilDate)
    (tz tzLater : ℤ) :
    filteredExpenses l TimeFilter.all now tz = l ∧
    filteredExpenses (filteredExpenses l TimeFilter.all now tz)
      TimeFilter.all nowLater tzLater = l :=
  ⟨rfl, rfl⟩

/-- C7 (confirmed): a record whose date string is not parseable as a date
(by the ECMA-262 rules `new Date(...)` applies) is excluded from the
`WEEK` and `MONTH` filters; the computation is total, so it fails closed
rather than aborting. -/
theorem malformed_date_excluded (i : Instant) (l : List Expense) (e : Expense)
    (h : parseEcmaDate e.date = none) :
    e ∉ filteredAt i l TimeFilter.week ∧ e ∉ filteredAt i l TimeFilter.month := by
  constructor <;>
  · intro hmem
    obtain ⟨t, hp, _, _⟩ := ((mem_filter_inWindow l _ _ _ e).mp hmem).2
    unfold parseDateMs at hp
    rw [h] at hp
    exact Option.noConfusion hp

/-- Witness for C7 at a record dated "not-a-date". -/
theorem malformed_date_excluded_witness :
    malformedRec ∉ filteredAt demoInstant [malformedRec] TimeFilter.week ∧
    malformedRec ∉ filteredAt demoInstant [malformedRec] TimeFilter.month :=
  malformed_date_excluded demoInstant [malformedRec] malformedRec (by decide)

/-- C5 (amended): an add or save-edit invocation whose amount parses to
`NaN` or to a non-positive number, whose category is empty after
trimming, or — for edits — whose date is empty after trimming, is
silently rejected: no persistence call is made, the stored collection is
unchanged, and the form or edit state is preserved.  (As stated the claim
also covers *invalid* non-empty dates on edit, and that part fails: the
code only checks `editDate.trim()` for emptiness, so a non-empty
unparseable date such as "banana" is accepted and written — see the
counterexample theorem.) -/
theorem invalid_input_rejected (s : FormState) (store : List Expense) (nextId : ℤ)
    (today : String) (es : EditState) (storeB : List Expense)
    (hAdd : (parseFloat s.amount).isNaN = true ∨ jsLeZero (parseFloat s.amount) = true ∨
      jsTrim s.category = "")
    (hEdit : (parseFloat es.amount).isNaN = true ∨ jsLeZero (parseFloat es.amount) = true ∨
      jsTrim es.category = "" ∨ jsTrim es.date = "") :
    addExpense s store nextId today = ⟨store, s, false⟩ ∧
    saveEdit es storeB = ⟨storeB, es, false⟩ := by
  constructor
  · simp only [addExpense]
    rw [if_pos hAdd]
  · cases hedit : es.editing with
    | none => simp only [saveEdit, hedit]
    | some target =>
      simp only [saveEdit, hedit]
      rw [if_pos hEdit]

set_option exponentiation.threshold 1200 in
set_option maxRecDepth 4000 in
/-- Witness for C5: amount "-5" and an edit whose date is blank are each
rejected with the store, the form and the edit state unchanged. -/
theorem invalid_input_rejected_witness :
    addExpense ⟨"-5", "Food", ""⟩ [cexRecB] 7 "2024-01-05" =
      ⟨[cexRecB], ⟨"-5", "Food", ""⟩, false⟩ ∧
    saveEdit ⟨some cexRecB, "10", "Food", "", "   "⟩ [cexRecB] =
      ⟨[cexRecB], ⟨some cexRecB, "10", "Food", "", "   "⟩, false⟩ :=
  invalid_input_rejected ⟨"-5", "Food", ""⟩ [cexRecB] 7 "2024-01-05"
    ⟨some cexRecB, "10", "Food", "", "   "⟩ [cexRecB]
    (Or.inr (Or.inl (by decide))) (Or.inr (Or.inr (Or.inr (by decide))))

set_option exponentiation.threshold 1200 in
set_option maxRecDepth 4000 in
/-- Counterexample to C5 as stated: a save-edit whose date field holds the
non-empty but unparseable date "banana" is *not* rejected — the UPDATE is
issued and the row's date becomes "banana", even though that string is not
a parseable date. -/
theorem invalid_edit_date_accepted_cex :
    (saveEdit bananaEdit [cexRecB]).persisted = true ∧
    (saveEdit bananaEdit [cexRecB]).store =
      [⟨2, JSVal.num 10, some "Food", none, "banana"⟩] ∧
    parseEcmaDate "banana" = none := by
  decide

/-- C10 (confirmed): a successful add stamps the new record with
`getTodayIsoDate()`, the UTC calendar day of the creation instant (the
date part of the ISO-8601 UTC timestamp), while the WEEK and MONTH
windows used by the filter are resolved from the host-local calendar date
and host-local midnights of the reference instant; so at an instant whose
local day differs from its UTC day the record is stamped with the UTC
day. -/
theorem added_date_uses_utc_day (i : Instant) (s : FormState) (store : List Expense)
    (nextId : ℤ) (q : ℚ) (hq : parseFloat s.amount = JNum.num q) (hpos : 0 < q)
    (hcat : jsTrim s.category ≠ "") :
    (addExpenseAt i s store nextId).store =
      store ++ [⟨nextId, JSVal.num q, some (jsTrim s.category), trimOrNull s.note,
        isoOfCivil i.utcDate⟩] ∧
    (addExpenseAt i s store nextId).persisted = true ∧
    getTodayIsoDate i = isoOfCivil i.utcDate ∧
    (∀ l, filteredAt i l TimeFilter.week =
      l.filter (inWindow i.tzOffset
        (localMidnightUtcMs i.tzOffset (getWeekBounds (civilToDay i.localDate)).1)
        (localMidnightUtcMs i.tzOffset (getWeekBounds (civilToDay i.localDate)).2))) ∧
    (∀ l, filteredAt i l TimeFilter.month =
      l.filter (inWindow i.tzOffset
        (localMidnightUtcMs i.tzOffset
          (civilToDay (getMonthBounds i.localDate.year i.localDate.month).1))
        (localMidnightUtcMs i.tzOffset
          (civilToDay (getMonthBounds i.localDate.year i.localDate.month).2)))) := by
  have hcond : ¬((parseFloat s.amount).isNaN = true ∨
      jsLeZero (parseFloat s.amount) = true ∨ jsTrim s.category = "") := by
    push_neg
    refine ⟨?_, ?_, hcat⟩
    · rw [hq]
      simp [JNum.isNaN]
    · rw [hq]
      simp only [jsLeZero, ne_eq, decide_eq_true_eq]
      exact not_le.mpr hpos
  refine ⟨?_, ?_, rfl, fun l => rfl, fun l => rfl⟩
  · simp only [addExpenseAt, addExpense, getTodayIsoDate]
    rw [if_neg hcond, hq]
    rfl
  · simp only [addExpenseAt, addExpense, getTodayIsoDate]
    rw [if_neg hcond]

set_option exponentiation.threshold 1200 in
set_option maxRecDepth 4000 in
/-- Witness for C10 at an instant whose UTC day (2024-01-06) differs from
its host-local day (2024-01-05): the stored date is the UTC day. -/
theorem added_date_uses_utc_day_witness :
    (addExpenseAt skewInstant ⟨"10", "Food", ""⟩ [] 9).store =
      [⟨9, JSVal.num 10, some "Food", none, "2024-01-06"⟩] := by
  have h := (added_date_uses_utc_day skewInstant ⟨"10", "Food", ""⟩ [] 9 10
    (by decide) (by decide) (by decide)).1
  rw [h]
  decide

/-- C9 (confirmed): `chartData` maps the totals entries in order to
segments whose colour is the palette entry at the position modulo the
palette length (6), produces exactly one "No Data" placeholder segment of
value 1 when the totals map is empty, and never returns an empty
series. -/
theorem chartData_spec (totals : List (String × JNum)) :
    (totals = [] → chartData totals =
      [⟨"No Data", JNum.num 1, "#374151", "#9ca3af", 12⟩]) ∧
    chartData totals ≠ [] ∧
    (∀ i : ℕ, ∀ h : i < totals.length,
      (chartData totals).get? i =
        some ⟨(totals.get ⟨i, h⟩).1, (totals.get ⟨i, h⟩).2,
          palette.getD (i % 6) "", "#f9fafb", 12⟩) := by
  refine ⟨?_, ?_, ?_⟩
  · intro h
    subst h
    rfl
  · by_cases h : 0 < totals.length
    · exact List.ne_nil_of_length_pos (by simp [chartData, h])
    · have h0 : totals = [] := by
        cases totals with
        | nil => rfl
        | cons a rest => simp at h
      subst h0
      simp [chartData]
  · intro i h
    have hpos : 0 < totals.length := Nat.lt_of_le_of_lt (Nat.zero_le _) h
    simp only [chartData, if_pos hpos]
    rw [List.get?_map, List.get?_enum, List.get?_eq_get h]
    rfl

/-- Witness for C9: the placeholder on an empty mapping, and the first
segment and its palette colour on a one-entry mapping. -/
theorem chartData_spec_witness :
    chartData [] = [⟨"No Data", JNum.num 1, "#374151", "#9ca3af", 12⟩] ∧
    (chartData [("Food", JNum.num 30)]).get? 0 =
      some ⟨"Food", JNum.num 30, "#f87171", "#f9fafb", 12⟩ :=
  ⟨(chartData_spec []).1 rfl,
   (chartData_spec [("Food", JNum.num 30)]).2.2 0 (by decide)⟩

/-- C4 (amended): a falsy amount (missing, `null`, `NaN`, `0`, or the
empty string) contributes exactly zero: its `Number(amount || 0)` value is
`0`, appending such a record leaves `overallTotal` unchanged, keeps the
numeric total already stored for its category, and leaves every other
category's entry untouched; aggregation never aborts.  (As stated for all
non-numeric amounts the claim fails: a truthy non-numeric string amount
contributes `NaN`, not zero — see the counterexample theorem.) -/
theorem falsy_amount_contributes_zero (l : List Expense) (e : Expense)
    (hf : e.amount.falsy = true) :
    amountValue e.amount = JNum.num 0 ∧
    overallTotal (l ++ [e]) = overallTotal l ∧
    (∀ q : ℚ, lookupJ (totalsByCategory l) (catLabel e.category) = some (JNum.num q) →
      lookupJ (totalsByCategory (l ++ [e])) (catLabel e.category) = some (JNum.num q)) ∧
    (∀ k, k ≠ catLabel e.category →
      lookupJ (totalsByCategory (l ++ [e])) k = lookupJ (totalsByCategory l) k) := by
  have hav : amountValue e.amount = JNum.num 0 := by
    simp [amountValue, jsOrZeroVal, hf, jsToNumber]
  refine ⟨hav, ?_, ?_, ?_⟩
  · rw [overallTotal_append, hav, add_zero_of_canonical _ (overallTotal_canonical l)]
  · intro q hq
    have hcan : (JNum.num q).canonical :=
      totals_canonical l (catLabel e.category, JNum.num q) (lookupJ_mem _ _ _ hq)
    rw [totals_append, categoryStep_eq, hav, hq, jsOrZero_some_num,
      add_zero_of_canonical _ hcan, lookupJ_upsert_self]
  · intro k hk
    rw [totals_append, categoryStep_eq, lookupJ_upsert_ne _ _ _ _ hk]

set_option exponentiation.threshold 1200 in
set_option maxRecDepth 4000 in
/-- Witness for C4: appending a `null`-amount record leaves the overall
total unchanged. -/
theorem falsy_amount_contributes_zero_witness :
    amountValue (JSVal.null) = JNum.num 0 ∧
    overallTotal ([cexRecB] ++ [⟨4, JSVal.null, some "Food", none, "2024-01-05"⟩]) =
      overallTotal [cexRecB] :=
  ⟨(falsy_amount_contributes_zero [cexRecB]
      ⟨4, JSVal.null, some "Food", none, "2024-01-05"⟩ (by decide)).1,
   (falsy_amount_contributes_zero [cexRecB]
      ⟨4, JSVal.null, some "Food", none, "2024-01-05"⟩ (by decide)).2.1⟩

/-- Counterexample to C4 as stated: a record whose amount is the
non-numeric string "abc" contributes `NaN` — not zero — to its category
total and to the overall total (though aggregation still does not
abort). -/
theorem nonnumeric_amount_cex :
    totalsByCategory [cexRecA] = [("Food", JNum.nan)] ∧
    overallTotal [cexRecA] = JNum.nan ∧
    JNum.nan ≠ JNum.num 0 := by
  decide

